import Mathlib

/-!
Verification of the ODM processor core (`appy.py`): a shallow embedding of
the XML extraction functions and proofs about them.

XML documents are modelled as rose trees of elements carrying a tag, an
attribute list and children, mirroring `xml.etree.ElementTree`.  Namespaced
tags and attribute names use ElementTree's `{uri}Local` convention.
-/

/-- An XML element: tag (possibly `{uri}Local`-qualified), attributes in
document order (keys unique, as in a Python dict), and child elements. -/
inductive Element : Type where
  | mk (tag : String) (attrib : List (String × String)) (children : List Element)

def Element.tag : Element → String
  | .mk t _ _ => t

def Element.attrib : Element → List (String × String)
  | .mk _ a _ => a

def Element.children : Element → List Element
  | .mk _ _ c => c

/-- `element.get(name, default)` on the attribute dict. -/
def Element.get (e : Element) (name dflt : String) : String :=
  match e.attrib.find? (fun p => p.1 == name) with
  | some p => p.2
  | none => dflt

mutual

/-- An element followed by all its descendants, in document order. -/
def Element.preorder : Element → List Element
  | .mk t a cs => .mk t a cs :: preorderList cs

/-- All elements of the given forest in document (preorder) order; for a root
`r`, `preorderList r.children` is what `r.findall('.//tag')` traverses. -/
def preorderList : List Element → List Element
  | [] => []
  | e :: es => e.preorder ++ preorderList es

end

/-- `root.findall('.//' + tag)`: all descendants with the given tag,
in document order. -/
def findallDesc (root : Element) (tag : String) : List Element :=
  (preorderList root.children).filter (fun e => e.tag == tag)

/-- `root.findall(tag)`: direct children with the given tag. -/
def findallChild (root : Element) (tag : String) : List Element :=
  root.children.filter (fun e => e.tag == tag)

/-- Left brace as a string (ElementTree qualified-name syntax). -/
def lbr : String := "\x7b"

/-- Right brace as a string. -/
def rbr : String := "\x7d"

/-- ElementTree fully-qualified tag `{uri}Local`. -/
def qualTag (uri local_ : String) : String := lbr ++ uri ++ rbr ++ local_

/-- Does `pat` occur as a prefix at some position of `l`? Helper for
Python's substring operator. -/
def substrAux (pat : List Char) : List Char → Bool
  | [] => pat.isPrefixOf []
  | c :: rest => pat.isPrefixOf (c :: rest) || substrAux pat rest

/-- Python's `pat in s` substring test. -/
def strContains (s pat : String) : Bool := substrAux pat.toList s.toList

/-- Python's `s.endswith(t)`. -/
def strEndsWith (s t : String) : Bool := t.toList.isSuffixOf s.toList

/-- ASCII whitespace stripped by Python's `str.strip()`. -/
def isWs (c : Char) : Bool := c = ' ' || c = '\t' || c = '\r' || c = '\n'

/-- Python's `s.strip()`. -/
def pyStrip (s : String) : String :=
  String.mk (((s.toList.dropWhile isWs).reverse.dropWhile isWs).reverse)

/-- Lower-case a basic latin letter, as `str.lower()` does per character. -/
def charLower (c : Char) : Char :=
  if 65 ≤ c.toNat ∧ c.toNat ≤ 90 then Char.ofNat (c.toNat + 32) else c

/-- Upper-case a basic latin letter, as `str.upper()` does per character. -/
def charUpper (c : Char) : Char :=
  if 97 ≤ c.toNat ∧ c.toNat ≤ 122 then Char.ofNat (c.toNat - 32) else c

/-- Python's `s.lower()` (on the basic latin range). -/
def strLower (s : String) : String := String.mk (s.toList.map charLower)

/-- Python's `s.upper()` (on the basic latin range). -/
def strUpper (s : String) : String := String.mk (s.toList.map charUpper)

/-- Code-point lexicographic `≤` on char lists, Python's string order. -/
def charListLe : List Char → List Char → Bool
  | [], _ => true
  | _ :: _, [] => false
  | c :: cs, d :: ds =>
    if c.toNat < d.toNat then true
    else if d.toNat < c.toNat then false
    else charListLe cs ds

/-- Python's `a <= b` on strings. -/
def strLe (a b : String) : Bool := charListLe a.toList b.toList

/-- Insert into a duplicate-free list if absent (models `set.add`). -/
def insertNew (x : String) (l : List String) : List String :=
  if x ∈ l then l else l ++ [x]

/-- Union of a set (dup-free list) with a list of new members
(models `set.update`). -/
def setUnion (l : List String) (xs : List String) : List String :=
  xs.foldl (fun acc x => insertNew x acc) l

/-- Insertion sort on strings, models Python `sorted` on a set of strings. -/
def insertSorted (x : String) : List String → List String
  | [] => [x]
  | y :: ys => if strLe x y then x :: y :: ys else y :: insertSorted x ys

def sortStrings : List String → List String
  | [] => []
  | x :: xs => insertSorted x (sortStrings xs)

/-- Set equality of duplicate-free lists (models Python `set ==`). -/
def setEq (a b : List String) : Bool :=
  a.all (fun x => x ∈ b) && b.all (fun x => x ∈ a)

/-! ## Constants and value normalizer (appy.py lines 8-26) -/

def MONITORING_COLUMNS : List String := ["SDV", "Medical Review", "Data Review"]

def IGNORED_SITE : String := "REDCap Cloud Demo"

/-- `to_yes_no(value)`; `none` models Python `None`, `some s` a string value. -/
def to_yes_no : Option String → String
  | none => "N"
  | some v =>
    let value_str := strLower (pyStrip v)
    if value_str ∈ ["yes", "true", "1", "y"] then "Y"
    else if value_str ∈ ["no", "false", "0", "n"] then "N"
    else if value_str = "" then "N" else strUpper value_str

/-- `is_true_value(value)`. -/
def is_true_value : Option String → Bool
  | none => false
  | some v => strLower (pyStrip v) ∈ ["yes", "true", "1", "y", "dynamic", "created by rule"]

/-! ## Namespace resolver and tolerant finder (appy.py lines 28-61) -/

/-- The namespace dict `{'odm': ..., 'REDCap': ...}`; both keys are always
present, so a structure is a faithful model. -/
structure NSMap where
  odm : String
  REDCap : String
deriving DecidableEq, Repr

def defaultOdmNs : String := "http://www.cdisc.org/ns/odm/v1.3"

def defaultRedcapNs : String := "https://www.redcapcloud.com/ns/odm_ext_v132/v10"

/-- One step of `get_namespace_map`'s attribute loop (appy.py lines 37-42):
an xmlns-ish attribute whose value mentions odm and cdisc overrides the core
URI, one mentioning redcap overrides the extension URI. -/
def nsAttrStep (p : String × String) (acc : String × String) : String × String :=
  if strContains p.1 "xmlns" then
    let acc1 :=
      if strContains (strLower p.2) "odm" && strContains (strLower p.2) "cdisc" then
        (p.2, acc.2)
      else acc
    if strContains (strLower p.2) "redcap" then (acc1.1, p.2) else acc1
  else acc

/-- `get_namespace_map(root)`: adopt the root tag's URI if it mentions "odm",
then scan xmlns-ish attributes for cdisc-odm and redcap URIs. -/
def get_namespace_map (root : Element) : NSMap :=
  let odm0 := defaultOdmNs
  let odm1 :=
    if strContains root.tag rbr then
      let ns_uri := String.mk ((root.tag.toList.takeWhile (fun c => c ≠ '\x7d')).drop 1)
      if strContains (strLower ns_uri) "odm" then ns_uri else odm0
    else odm0
  let res := root.attrib.foldl (fun acc p => nsAttrStep p acc) (odm1, defaultRedcapNs)
  ⟨res.1, res.2⟩

/-- `find_elements_once(root, tag_name, namespaces)`: fully-qualified
descendant search, then prefix-qualified (the `odm:` prefix resolves to the
same URI), then unqualified. -/
def find_elements_once (root : Element) (tag_name : String) (ns : NSMap) : List Element :=
  let elements := findallDesc root (qualTag ns.odm tag_name)
  if !elements.isEmpty then elements
  else
    let elements2 := findallDesc root (qualTag ns.odm tag_name)
    if !elements2.isEmpty then elements2
    else findallDesc root tag_name

/-- `get_redcap_attr(element, attr_name, namespaces)`: extension-namespaced
attribute first, bare name as fallback; empty string when absent. -/
def get_redcap_attr (e : Element) (attr_name : String) (ns : NSMap) : String :=
  let value := e.get (qualTag ns.REDCap attr_name) ""
  if value ≠ "" then value else e.get attr_name ""

/-! ## Site/form map builder (appy.py lines 63-102) -/

/-- Per-site info: internal OID and the set of form OIDs (dup-free list). -/
structure SiteInfo where
  oid : String
  forms : List String
deriving DecidableEq

/-- The site map: insertion-ordered dict from display name to `SiteInfo`. -/
abbrev SiteFormsMap := List (String × SiteInfo)

/-- Form OIDs collected within one metadata-version element: nested
form-definition `OID`s unioned with nested form-reference `FormOID`s,
each located with the qualified/prefix/unqualified fallback. -/
def collectFormOids (mv : Element) (ns : NSMap) : List String :=
  let form_defs0 := findallDesc mv (qualTag ns.odm "FormDef")
  let form_defs1 := if form_defs0.isEmpty then findallDesc mv (qualTag ns.odm "FormDef") else form_defs0
  let form_defs := if form_defs1.isEmpty then findallDesc mv "FormDef" else form_defs1
  let s1 := form_defs.foldl
    (fun acc f => let fo := f.get "OID" ""; if fo ≠ "" then insertNew fo acc else acc) []
  let form_refs0 := findallDesc mv (qualTag ns.odm "FormRef")
  let form_refs1 := if form_refs0.isEmpty then findallDesc mv (qualTag ns.odm "FormRef") else form_refs0
  let form_refs := if form_refs1.isEmpty then findallDesc mv "FormRef" else form_refs1
  form_refs.foldl
    (fun acc f => let fo := f.get "FormOID" ""; if fo ≠ "" then insertNew fo acc else acc) s1

/-- The display name of a metadata-version element: `Name`, else `OID`. -/
def mvSiteName (mv : Element) : String :=
  let n := mv.get "Name" ""
  if n = "" then mv.get "OID" "" else n

/-- Dict update: union forms into an existing entry, else append a new one. -/
def updSiteMap (m : SiteFormsMap) (name oid : String) (forms : List String) : SiteFormsMap :=
  if (m.find? (fun p => p.1 == name)).isSome then
    m.map (fun p => if p.1 == name then (p.1, ⟨p.2.oid, setUnion p.2.forms forms⟩) else p)
  else m ++ [(name, ⟨oid, forms⟩)]

/-- The loop of `extract_metadata_versions`, carrying the map. -/
def mvFold (ns : NSMap) : List Element → SiteFormsMap → SiteFormsMap
  | [], m => m
  | mv :: rest, m =>
    let site_name := mvSiteName mv
    if site_name = IGNORED_SITE then mvFold ns rest m
    else mvFold ns rest (updSiteMap m site_name (mv.get "OID" "") (collectFormOids mv ns))

/-- `extract_metadata_versions(root, namespaces)`. -/
def extract_metadata_versions (root : Element) (ns : NSMap) : SiteFormsMap :=
  mvFold ns (find_elements_once root "MetaDataVersion" ns) []

/-! ## Event definition extractor (appy.py lines 104-129) -/

structure EventDefRow where
  uniqueEventName : String
  name : String
  manualScheduling : String
  repeating : String
  dynamicCreatedByRule : String
deriving DecidableEq

/-- A pandas DataFrame of event-definition rows: column labels plus rows. -/
structure EventDefDF where
  columns : List String
  rows : List EventDefRow
deriving DecidableEq

def eventDefCols : List String :=
  ["Unique Event Name", "Name", "Manual Scheduling", "Repeating", "Dynamic/Created by Rule"]

/-- One event-definition row (appy.py lines 117-127). -/
def mkEventDefRow (ev : Element) (ns : NSMap) : EventDefRow :=
  { uniqueEventName := get_redcap_attr ev "UniqueEventName" ns
    name := ev.get "Name" ""
    manualScheduling := to_yes_no (some (get_redcap_attr ev "AllowManualSchedule" ns))
    repeating := to_yes_no (some (ev.get "Repeating" ""))
    dynamicCreatedByRule :=
      if is_true_value (some (get_redcap_attr ev "DynamicEvent" ns))
          || is_true_value (some (get_redcap_attr ev "CreatedByRule" ns)) then "Y" else "N" }

/-- The dedup loop of `extract_event_definitions`: skip empty or seen OIDs. -/
def eventDefRowsAux (ns : NSMap) : List Element → List String → List EventDefRow
  | [], _ => []
  | ev :: rest, seen =>
    let oid := ev.get "OID" ""
    if oid = "" ∨ oid ∈ seen then eventDefRowsAux ns rest seen
    else mkEventDefRow ev ns :: eventDefRowsAux ns rest (oid :: seen)

/-- `extract_event_definitions(root, namespaces)`.  `pd.DataFrame()` and
`pd.DataFrame([])` both carry no columns; `pd.DataFrame(nonempty)` carries
the record keys as columns. -/
def extract_event_definitions (root : Element) (ns : NSMap) : EventDefDF :=
  let evs := find_elements_once root "StudyEventDef" ns
  if evs.isEmpty then ⟨[], []⟩
  else
    let rows := eventDefRowsAux ns evs []
    ⟨if rows.isEmpty then [] else eventDefCols, rows⟩

/-! ## Event instrument extractor (appy.py lines 131-219) -/

structure InstRow where
  event : String
  instrumentName : String
  version : String
  site : String
  repeating : String
  dynamic : String
  required : String
  sdv : String
  medicalReview : String
  dataReview : String
deriving DecidableEq

structure InstDF where
  columns : List String
  rows : List InstRow
deriving DecidableEq

def instCols : List String :=
  ["Event", "Instrument Name", "Version", "Site", "Repeating", "Dynamic", "Required"]
    ++ MONITORING_COLUMNS

/-- The form-name dict loop (appy.py lines 140-146): first OID wins. -/
def formNamesAux : List Element → List String → List (String × String)
  | [], _ => []
  | f :: rest, seen =>
    let oid := f.get "OID" ""
    if oid ≠ "" ∧ oid ∉ seen then (oid, f.get "Name" "") :: formNamesAux rest (oid :: seen)
    else formNamesAux rest seen

/-- `dict.get(key, default)` on an association list. -/
def assocGetD (m : List (String × String)) (k dflt : String) : String :=
  match m.find? (fun p => p.1 == k) with
  | some p => p.2
  | none => dflt

/-- Form-reference children of an event (appy.py lines 155-164): prefix-
qualified children when the core URI is truthy, else unqualified children
when the extension URI is truthy, else a manual substring-or-suffix match. -/
def findFormRefs (event : Element) (ns : NSMap) : List Element :=
  let fr1 := if ns.odm ≠ "" then findallChild event (qualTag ns.odm "FormRef") else []
  let fr2 := if fr1.isEmpty && ns.REDCap ≠ "" then findallChild event "FormRef" else fr1
  if fr2.isEmpty then
    event.children.filter (fun c => strContains c.tag "FormRef" || strEndsWith c.tag "FormRef")
  else fr2

/-- Sites declaring a form (appy.py lines 173-177), in map order. -/
def declaringSites (form_oid : String) (m : SiteFormsMap) : List String :=
  (m.filter (fun p => form_oid ∈ p.2.forms)).map (fun p => p.1)

/-- The Site display string (appy.py lines 179-184). -/
def siteDisplayFor (form_oid : String) (m : SiteFormsMap) : String :=
  let form_sites := declaringSites form_oid m
  if form_sites.isEmpty then "Unknown Site"
  else if setEq form_sites (m.map (fun p => p.1)) then "All sites"
  else String.intercalate ", " (sortStrings form_sites)

/-- Monitoring sub-elements of a form reference (appy.py lines 186-194):
extension-qualified descendants, the equivalent prefix search, then a
manual substring match over direct children; empty when the extension
URI is falsy. -/
def monitoringElems (fr : Element) (ns : NSMap) : List Element :=
  if ns.REDCap = "" then []
  else
    let m1 := findallDesc fr (qualTag ns.REDCap "Monitoring")
    if !m1.isEmpty then m1
    else
      let m2 := findallDesc fr (qualTag ns.REDCap "Monitoring")
      if !m2.isEmpty then m2
      else fr.children.filter (fun c => strContains c.tag "Monitoring")

/-- The distinct nonempty `Type` attribute values of the monitoring
sub-elements (appy.py lines 195-198). -/
def monitoringTypes (fr : Element) (ns : NSMap) : List String :=
  (monitoringElems fr ns).foldl
    (fun acc m => let t := m.get "Type" ""; if t ≠ "" then insertNew t acc else acc) []

/-- One instrument record (appy.py lines 200-210). -/
def mkInstRecord (event_name : String) (form_ref : Element) (form_oid : String)
    (formNames : List (String × String)) (siteMap : SiteFormsMap) (ns : NSMap) : InstRow :=
  { event := event_name
    instrumentName := assocGetD formNames form_oid ""
    version := get_redcap_attr form_ref "DefaultVersion" ns
    site := siteDisplayFor form_oid siteMap
    repeating := to_yes_no (some (get_redcap_attr form_ref "Repeating" ns))
    dynamic := to_yes_no (some (get_redcap_attr form_ref "DynamicForm" ns))
    required := to_yes_no (some (form_ref.get "Mandatory" ""))
    sdv := if "SDV" ∈ monitoringTypes form_ref ns then "Y" else "N"
    medicalReview := if "Medical Review" ∈ monitoringTypes form_ref ns then "Y" else "N"
    dataReview := if "Data Review" ∈ monitoringTypes form_ref ns then "Y" else "N" }

/-- Inner loop over one event's form references, threading the global
seen-(event,form) set. -/
def instRowsFR (ns : NSMap) (formNames : List (String × String)) (siteMap : SiteFormsMap)
    (event_oid event_name : String) :
    List Element → List (String × String) → List InstRow × List (String × String)
  | [], seen => ([], seen)
  | fr :: rest, seen =>
    let form_oid := fr.get "FormOID" ""
    if form_oid = "" ∨ (event_oid, form_oid) ∈ seen then
      instRowsFR ns formNames siteMap event_oid event_name rest seen
    else
      let r := mkInstRecord event_name fr form_oid formNames siteMap ns
      let p := instRowsFR ns formNames siteMap event_oid event_name rest
        ((event_oid, form_oid) :: seen)
      (r :: p.1, p.2)

/-- Outer loop over events (appy.py lines 151-211). -/
def instRowsAux (ns : NSMap) (formNames : List (String × String)) (siteMap : SiteFormsMap) :
    List Element → List (String × String) → List InstRow
  | [], _ => []
  | ev :: rest, seen =>
    let p := instRowsFR ns formNames siteMap (ev.get "OID" "") (ev.get "Name" "")
      (findFormRefs ev ns) seen
    p.1 ++ instRowsAux ns formNames siteMap rest p.2

/-- `extract_event_instruments(root, namespaces)`. -/
def extract_event_instruments (root : Element) (ns : NSMap) : InstDF :=
  let evs := find_elements_once root "StudyEventDef" ns
  let form_defs := find_elements_once root "FormDef" ns
  if evs.isEmpty then ⟨[], []⟩
  else
    let siteMap := extract_metadata_versions root ns
    let formNames := formNamesAux form_defs []
    let rows := instRowsAux ns formNames siteMap evs []
    if rows.isEmpty then ⟨instCols, []⟩
    else ⟨instCols.filter (fun c => c ∈ instCols), rows⟩

/-! ## Entry point (appy.py lines 221-231)

`ET.fromstring` is external library code; its outcome is modelled by the
`parsed` argument: `.error msg` when the bytes are not well-formed XML
(with the parser's message), `.ok root` otherwise.  The Lean extraction
functions are total, so the generic `except Exception` branch of the
Python source has no counterpart here. -/

def process_odm_content (parsed : Except String Element) :
    Option EventDefDF × Option InstDF × Option String :=
  match parsed with
  | .error msg => (none, none, some ("XML Parse Error: " ++ msg))
  | .ok root =>
    let ns := get_namespace_map root
    (some (extract_event_definitions root ns), some (extract_event_instruments root ns), none)

/-! ## Helper lemmas -/

theorem charToNat_ofNat {n : Nat} (h : n < 55296) : (Char.ofNat n).toNat = n := by
  have hv : n.isValidChar := Or.inl h
  rw [Char.ofNat, dif_pos hv]
  simp [Char.ofNatAux, Char.toNat, UInt32.toNat, BitVec.ofNatLt]

theorem charUpper_charLower (c : Char) : charUpper (charLower c) = charUpper c := by
  unfold charLower charUpper
  by_cases h : 65 ≤ c.toNat ∧ c.toNat ≤ 90
  · rw [if_pos h]
    have h32 : (Char.ofNat (c.toNat + 32)).toNat = c.toNat + 32 :=
      charToNat_ofNat (by omega)
    rw [if_pos (by omega : 97 ≤ (Char.ofNat (c.toNat + 32)).toNat ∧
          (Char.ofNat (c.toNat + 32)).toNat ≤ 122)]
    rw [if_neg (by omega : ¬ (97 ≤ c.toNat ∧ c.toNat ≤ 122))]
    rw [h32]
    simp
  · rw [if_neg h]

theorem strUpper_strLower (s : String) : strUpper (strLower s) = strUpper s := by
  unfold strUpper strLower
  cases s with
  | mk data =>
    simp only [String.toList]
    congr 1
    rw [List.map_map]
    exact List.map_congr_left (fun c _ => charUpper_charLower c)

theorem strLower_empty_iff (s : String) : strLower s = "" ↔ s = "" := by
  cases s with
  | mk data =>
    unfold strLower
    constructor
    · intro h
      have hd : data.map charLower = [] := by
        have := congrArg String.data h
        simpa [String.toList] using this
      have hnil : data = [] := by simpa using hd
      rw [hnil]
    · intro h
      have hnil : data = [] := by
        have := congrArg String.data h
        simpa using this
      rw [hnil]
      decide

/-- Python's `s.startswith(t)`. -/
def strStartsWith (s t : String) : Bool := t.toList.isPrefixOf s.toList

theorem isPrefixOf_append (l r : List Char) : l.isPrefixOf (l ++ r) = true := by
  rw [List.isPrefixOf_iff_prefix]
  exact List.prefix_append l r

theorem strStartsWith_append (t m : String) : strStartsWith (t ++ m) t = true := by
  cases t with
  | mk a =>
    cases m with
    | mk b =>
      show List.isPrefixOf a (String.mk (a ++ b)).toList = true
      exact isPrefixOf_append a b

/-- Unfolded form of `to_yes_no` on a string input. -/
theorem to_yes_no_some (s : String) :
    to_yes_no (some s) =
      (if strLower (pyStrip s) ∈ ["yes", "true", "1", "y"] then "Y"
       else if strLower (pyStrip s) ∈ ["no", "false", "0", "n"] then "N"
       else if strLower (pyStrip s) = "" then "N"
       else strUpper (strLower (pyStrip s))) := rfl

/-! ## Claim C6 -/

/-- **C6**: `to_yes_no` maps null and empty-after-strip input to "N", any
case-insensitive match of yes/true/1/y to "Y", any case-insensitive match
of no/false/0/n to "N", and passes every other non-empty value through
upper-cased (in particular `to_yes_no none = "N"`,
`to_yes_no "TRUE" = "Y"`, `to_yes_no "banana" = "BANANA"`). -/
theorem claim_C6_to_yes_no :
    to_yes_no none = "N" ∧
    (∀ s : String, pyStrip s = "" → to_yes_no (some s) = "N") ∧
    (∀ s : String, strLower (pyStrip s) ∈ ["yes", "true", "1", "y"] →
      to_yes_no (some s) = "Y") ∧
    (∀ s : String, strLower (pyStrip s) ∈ ["no", "false", "0", "n"] →
      to_yes_no (some s) = "N") ∧
    (∀ s : String, pyStrip s ≠ "" →
      strLower (pyStrip s) ∉ ["yes", "true", "1", "y"] →
      strLower (pyStrip s) ∉ ["no", "false", "0", "n"] →
      to_yes_no (some s) = strUpper (pyStrip s)) ∧
    to_yes_no (some "TRUE") = "Y" ∧ to_yes_no (some "banana") = "BANANA" := by
  refine ⟨rfl, ?_, ?_, ?_, ?_, by decide, by decide⟩
  · intro s h
    have h0 : strLower (pyStrip s) = "" := by rw [h]; decide
    rw [to_yes_no_some, h0]
    decide
  · intro s h
    rw [to_yes_no_some, if_pos h]
  · intro s h
    have h1 : strLower (pyStrip s) ∉ ["yes", "true", "1", "y"] := by
      generalize strLower (pyStrip s) = x at h ⊢
      fin_cases h <;> decide
    rw [to_yes_no_some, if_neg h1, if_pos h]
  · intro s hne h1 h2
    have h0 : ¬ strLower (pyStrip s) = "" := fun hc =>
      hne ((strLower_empty_iff (pyStrip s)).mp hc)
    rw [to_yes_no_some, if_neg h1, if_neg h2, if_neg h0, strUpper_strLower]

/-- Witness for C6: applies the quantified parts at concrete inputs. -/
theorem claim_C6_to_yes_no_witness :
    to_yes_no (some "   ") = "N" ∧ to_yes_no (some " TRUE ") = "Y" ∧
    to_yes_no (some "No") = "N" ∧ to_yes_no (some " banana ") = "BANANA" :=
  ⟨claim_C6_to_yes_no.2.1 "   " (by decide),
   claim_C6_to_yes_no.2.2.1 " TRUE " (by decide),
   claim_C6_to_yes_no.2.2.2.1 "No" (by decide),
   claim_C6_to_yes_no.2.2.2.2.1 " banana " (by decide) (by decide) (by decide)⟩

/-! ## Claim C1 -/

/-- **C1**: `process_odm_content` is a total function of the parse outcome:
on a parse failure it returns `(none, none, "XML Parse Error: " + message)`
(a string beginning with "XML Parse Error: "), and on a successfully parsed
document it returns the two extracted tables and no error.  The embedded
extraction functions are total, so no exception can escape; the generic
`"Error: "` branch of the source is unreachable in the model. -/
theorem claim_C1_process_boundary (parsed : Except String Element) :
    (∀ msg, parsed = .error msg →
      process_odm_content parsed = (none, none, some ("XML Parse Error: " ++ msg)) ∧
      strStartsWith ("XML Parse Error: " ++ msg) "XML Parse Error: " = true) ∧
    (∀ root, parsed = .ok root →
      process_odm_content parsed
        = (some (extract_event_definitions root (get_namespace_map root)),
           some (extract_event_instruments root (get_namespace_map root)), none)) := by
  constructor
  · intro msg h
    subst h
    exact ⟨rfl, strStartsWith_append "XML Parse Error: " msg⟩
  · intro root h
    subst h
    rfl

/-- Witness for C1 at a concrete parse error and a concrete document. -/
theorem claim_C1_process_boundary_witness :
    process_odm_content (Except.error "no element found: line 1, column 0")
      = (none, none, some ("XML Parse Error: " ++ "no element found: line 1, column 0")) ∧
    process_odm_content (Except.ok (Element.mk "ODM" [] []))
      = (some (extract_event_definitions (Element.mk "ODM" [] [])
                (get_namespace_map (Element.mk "ODM" [] []))),
         some (extract_event_instruments (Element.mk "ODM" [] [])
                (get_namespace_map (Element.mk "ODM" [] []))), none) :=
  ⟨((claim_C1_process_boundary (Except.error "no element found: line 1, column 0")).1
      "no element found: line 1, column 0" rfl).1,
   (claim_C1_process_boundary (Except.ok (Element.mk "ODM" [] []))).2
      (Element.mk "ODM" [] []) rfl⟩

/-! ## Claim C2 -/

/-- **C2 counterexample**: on a well-formed document with no event-definition
elements, `extract_event_instruments` returns a table with NO columns (the
bare `pd.DataFrame()` at line 135), not the fixed ten-column schema, so the
claim's "including when the document contains no event-definition elements"
fails. -/
theorem claim_C2_counterexample :
    get_namespace_map (Element.mk "ODM" [("xmlns", "x")] [])
      = ⟨defaultOdmNs, defaultRedcapNs⟩ ∧
    (extract_event_instruments (Element.mk "ODM" [("xmlns", "x")] [])
        ⟨defaultOdmNs, defaultRedcapNs⟩).columns = [] ∧
    (extract_event_instruments (Element.mk "ODM" [("xmlns", "x")] [])
        ⟨defaultOdmNs, defaultRedcapNs⟩).rows = [] ∧
    ([] : List String) ≠ instCols := by
  refine ⟨by decide, by decide, by decide, by decide⟩

/-- **C2 amended**: the event-instruments table has exactly the ten columns
Event, Instrument Name, Version, Site, Repeating, Dynamic, Required, SDV,
Medical Review, Data Review, in that order, whenever at least one
event-definition element is found — including when zero rows result (e.g.
events with no form references); when no event-definition element is found
the extractor instead returns an empty table carrying no columns. -/
theorem claim_C2_amended_columns (root : Element) (ns : NSMap) :
    (extract_event_instruments root ns).columns
      = if (find_elements_once root "StudyEventDef" ns).isEmpty then [] else instCols := by
  have hf : instCols.filter (fun c => c ∈ instCols) = instCols := by decide
  unfold extract_event_instruments
  by_cases h : (find_elements_once root "StudyEventDef" ns).isEmpty
  · simp [h]
  · simp only [h, Bool.false_eq_true, if_false]
    split
    · rfl
    · exact hf

/-! ## Claim C10 -/

theorem eventDefRowsAux_filter_empty_oid (ns : NSMap) (evs : List Element) :
    ∀ seen, eventDefRowsAux ns evs seen
      = eventDefRowsAux ns (evs.filter (fun e => e.get "OID" "" ≠ "")) seen := by
  induction evs with
  | nil => intro _; rfl
  | cons ev rest ih =>
    intro seen
    by_cases h : ev.get "OID" "" = ""
    · simp [eventDefRowsAux, List.filter_cons, h, ih]
    · by_cases h2 : ev.get "OID" "" ∈ seen
      · simp [eventDefRowsAux, List.filter_cons, h, h2, ih]
      · simp [eventDefRowsAux, List.filter_cons, h, h2, ih]

/-- **C10**: a StudyEventDef element whose OID attribute is absent or empty
contributes no row to the Event Definitions table: the extracted rows equal
the rows extracted from the event list with all empty-OID elements removed,
regardless of their other attributes. -/
theorem claim_C10_empty_oid_no_row (root : Element) (ns : NSMap) :
    (extract_event_definitions root ns).rows
      = eventDefRowsAux ns
          ((find_elements_once root "StudyEventDef" ns).filter
            (fun e => e.get "OID" "" ≠ "")) [] := by
  unfold extract_event_definitions
  by_cases h : (find_elements_once root "StudyEventDef" ns).isEmpty
  · have hnil : find_elements_once root "StudyEventDef" ns = [] :=
      List.isEmpty_iff.mp h
    simp [h, hnil, eventDefRowsAux]
  · simp only [h, Bool.false_eq_true, if_false]
    exact eventDefRowsAux_filter_empty_oid ns _ []

/-! ## Flattened view of the instrument loop

The nested event/form-reference loop threads one global seen-combo set; it
is equal to a single pass over the flattened list of
(event OID, event name, form reference) triples, which the dedup proofs
work on. -/

/-- All (event OID, event Name, form-reference) triples in document order. -/
def flatFormRefs (ns : NSMap) : List Element → List (String × String × Element)
  | [] => []
  | ev :: rest =>
    ((findFormRefs ev ns).map (fun fr => (ev.get "OID" "", ev.get "Name" "", fr)))
      ++ flatFormRefs ns rest

/-- The dedup key of a triple: the `(event_oid, form_oid)` combo. -/
def comboKey (t : String × String × Element) : String × String :=
  (t.1, t.2.2.get "FormOID" "")

/-- Triples surviving the skip-empty-FormOID-and-seen-combo filter. -/
def dedupCombos : List (String × String × Element) → List (String × String) →
    List (String × String × Element)
  | [], _ => []
  | t :: rest, seen =>
    if t.2.2.get "FormOID" "" = "" ∨ comboKey t ∈ seen then dedupCombos rest seen
    else t :: dedupCombos rest (comboKey t :: seen)

/-- The seen-combo set after processing a triple list. -/
def seenAfter : List (String × String × Element) → List (String × String) →
    List (String × String)
  | [], seen => seen
  | t :: rest, seen =>
    if t.2.2.get "FormOID" "" = "" ∨ comboKey t ∈ seen then seenAfter rest seen
    else seenAfter rest (comboKey t :: seen)

/-- The instrument record built from a triple. -/
def mkInstFromTriple (ns : NSMap) (formNames : List (String × String))
    (siteMap : SiteFormsMap) (t : String × String × Element) : InstRow :=
  mkInstRecord t.2.1 t.2.2 (t.2.2.get "FormOID" "") formNames siteMap ns

theorem instRowsFR_eq (ns : NSMap) (fN : List (String × String)) (sM : SiteFormsMap)
    (eo en : String) (frs : List Element) : ∀ seen,
    instRowsFR ns fN sM eo en frs seen
      = ((dedupCombos (frs.map (fun fr => (eo, en, fr))) seen).map
           (mkInstFromTriple ns fN sM),
         seenAfter (frs.map (fun fr => (eo, en, fr))) seen) := by
  induction frs with
  | nil => intro _; rfl
  | cons fr rest ih =>
    intro seen
    by_cases h : fr.get "FormOID" "" = "" ∨ (eo, fr.get "FormOID" "") ∈ seen
    · simp [instRowsFR, dedupCombos, seenAfter, comboKey, h, ih]
    · simp [instRowsFR, dedupCombos, seenAfter, comboKey, h, ih, mkInstFromTriple]

theorem dedupCombos_append (l1 l2 : List (String × String × Element)) : ∀ seen,
    dedupCombos (l1 ++ l2) seen
      = dedupCombos l1 seen ++ dedupCombos l2 (seenAfter l1 seen) ∧
    seenAfter (l1 ++ l2) seen = seenAfter l2 (seenAfter l1 seen) := by
  induction l1 with
  | nil => intro _; exact ⟨rfl, rfl⟩
  | cons t rest ih =>
    intro seen
    by_cases h : t.2.2.get "FormOID" "" = "" ∨ comboKey t ∈ seen
    · simpa [dedupCombos, seenAfter, h] using ih seen
    · simpa [dedupCombos, seenAfter, h] using ih (comboKey t :: seen)

theorem instRows_flat_eq (ns : NSMap) (fN : List (String × String)) (sM : SiteFormsMap)
    (evs : List Element) : ∀ seen,
    instRowsAux ns fN sM evs seen
      = (dedupCombos (flatFormRefs ns evs) seen).map (mkInstFromTriple ns fN sM) := by
  induction evs with
  | nil => intro _; rfl
  | cons ev rest ih =>
    intro seen
    show (instRowsFR ns fN sM (ev.get "OID" "") (ev.get "Name" "")
        (findFormRefs ev ns) seen).1
        ++ instRowsAux ns fN sM rest
            (instRowsFR ns fN sM (ev.get "OID" "") (ev.get "Name" "")
              (findFormRefs ev ns) seen).2 = _
    rw [instRowsFR_eq]
    show _ = (dedupCombos (_ ++ flatFormRefs ns rest) seen).map _
    rw [(dedupCombos_append _ _ seen).1, List.map_append, ih]

/-- The rows of `extract_event_instruments`, in flattened dedup form. -/
theorem extract_instruments_rows_eq (root : Element) (ns : NSMap) :
    (extract_event_instruments root ns).rows
      = (dedupCombos (flatFormRefs ns (find_elements_once root "StudyEventDef" ns)) []).map
          (mkInstFromTriple ns (formNamesAux (find_elements_once root "FormDef" ns) [])
            (extract_metadata_versions root ns)) := by
  unfold extract_event_instruments
  by_cases h : (find_elements_once root "StudyEventDef" ns).isEmpty
  · have hnil : find_elements_once root "StudyEventDef" ns = [] :=
      List.isEmpty_iff.mp h
    simp [h, hnil, flatFormRefs, dedupCombos]
  · simp only [h, Bool.false_eq_true, if_false]
    split
    · rename_i hrows
      have := instRows_flat_eq ns
        (formNamesAux (find_elements_once root "FormDef" ns) [])
        (extract_metadata_versions root ns)
        (find_elements_once root "StudyEventDef" ns) []
      simp only [List.isEmpty_iff] at hrows
      simpa [hrows] using this.symm
    · exact instRows_flat_eq _ _ _ _ []

theorem dedupCombos_mem (l : List (String × String × Element)) : ∀ seen t,
    t ∈ dedupCombos l seen →
      t ∈ l ∧ t.2.2.get "FormOID" "" ≠ "" ∧ comboKey t ∉ seen := by
  induction l with
  | nil => intro seen t h; cases h
  | cons u rest ih =>
    intro seen t h
    by_cases hu : u.2.2.get "FormOID" "" = "" ∨ comboKey u ∈ seen
    · rw [dedupCombos, if_pos hu] at h
      obtain ⟨h1, h2, h3⟩ := ih seen t h
      exact ⟨List.mem_cons_of_mem u h1, h2, h3⟩
    · rw [dedupCombos, if_neg hu] at h
      push_neg at hu
      rcases List.mem_cons.mp h with rfl | h'
      · exact ⟨List.mem_cons_self _ _, hu.1, hu.2⟩
      · obtain ⟨h1, h2, h3⟩ := ih (comboKey u :: seen) t h'
        exact ⟨List.mem_cons_of_mem u h1, h2, fun hc => h3 (List.mem_cons_of_mem _ hc)⟩

theorem dedupCombos_keys_nodup (l : List (String × String × Element)) : ∀ seen,
    ((dedupCombos l seen).map comboKey).Nodup := by
  induction l with
  | nil => intro _; exact List.nodup_nil
  | cons u rest ih =>
    intro seen
    by_cases hu : u.2.2.get "FormOID" "" = "" ∨ comboKey u ∈ seen
    · rw [dedupCombos, if_pos hu]; exact ih seen
    · rw [dedupCombos, if_neg hu]
      rw [List.map_cons, List.nodup_cons]
      refine ⟨?_, ih (comboKey u :: seen)⟩
      intro hc
      obtain ⟨t, ht, hk⟩ := List.mem_map.mp hc
      have := (dedupCombos_mem rest (comboKey u :: seen) t ht).2.2
      exact this (hk ▸ List.mem_cons_self _ _)

theorem dedupCombos_first_occurrence (l : List (String × String × Element)) : ∀ seen t,
    t ∈ dedupCombos l seen →
      l.find? (fun u => comboKey u == comboKey t) = some t := by
  induction l with
  | nil => intro seen t h; cases h
  | cons u rest ih =>
    intro seen t h
    by_cases hu : u.2.2.get "FormOID" "" = "" ∨ comboKey u ∈ seen
    · rw [dedupCombos, if_pos hu] at h
      obtain ⟨_, hne, hns⟩ := dedupCombos_mem rest seen t h
      have hkey : comboKey u ≠ comboKey t := by
        rcases hu with hu | hu
        · intro hc
          apply hne
          have : (comboKey u).2 = (comboKey t).2 := by rw [hc]
          simpa [comboKey, hu] using this.symm
        · intro hc; exact hns (hc ▸ hu)
      have hb : (comboKey u == comboKey t) = false := by simpa using hkey
      rw [List.find?_cons, hb]
      exact ih seen t h
    · rw [dedupCombos, if_neg hu] at h
      rcases List.mem_cons.mp h with rfl | h'
      · have hb : (comboKey t == comboKey t) = true := by simp
        rw [List.find?_cons, hb]
      · have hns := (dedupCombos_mem rest (comboKey u :: seen) t h').2.2
        have hkey : comboKey u ≠ comboKey t := fun hc =>
          hns (hc ▸ List.mem_cons_self _ _)
        have hb : (comboKey u == comboKey t) = false := by simpa using hkey
        rw [List.find?_cons, hb]
        exact ih (comboKey u :: seen) t h'

theorem flatFormRefs_mem (ns : NSMap) (l : List Element) : ∀ t ∈ flatFormRefs ns l,
    ∃ ev fr, ev ∈ l ∧ fr ∈ findFormRefs ev ns ∧
      t = (ev.get "OID" "", ev.get "Name" "", fr) := by
  induction l with
  | nil => intro t h; cases h
  | cons ev rest ih =>
    intro t h
    rcases List.mem_append.mp h with h' | h'
    · obtain ⟨fr, hfr, rfl⟩ := List.mem_map.mp h'
      exact ⟨ev, fr, List.mem_cons_self _ _, hfr, rfl⟩
    · obtain ⟨ev', fr, h1, h2, h3⟩ := ih t h'
      exact ⟨ev', fr, List.mem_cons_of_mem _ h1, h2, h3⟩

/-- Provenance of every emitted instrument row: it is built by
`mkInstRecord` from some event element and some of its located
form-reference children with a nonempty `FormOID`. -/
theorem instRow_provenance (root : Element) (ns : NSMap) (r : InstRow)
    (h : r ∈ (extract_event_instruments root ns).rows) :
    ∃ ev fr, ev ∈ find_elements_once root "StudyEventDef" ns ∧
      fr ∈ findFormRefs ev ns ∧ fr.get "FormOID" "" ≠ "" ∧
      r = mkInstRecord (ev.get "Name" "") fr (fr.get "FormOID" "")
            (formNamesAux (find_elements_once root "FormDef" ns) [])
            (extract_metadata_versions root ns) ns := by
  rw [extract_instruments_rows_eq] at h
  obtain ⟨t, ht, rfl⟩ := List.mem_map.mp h
  obtain ⟨htl, hne, -⟩ := dedupCombos_mem _ _ t ht
  obtain ⟨ev, fr, hev, hfr, rfl⟩ := flatFormRefs_mem ns _ t htl
  exact ⟨ev, fr, hev, hfr, hne, rfl⟩

mutual

def elementDecEq : (a b : Element) → Decidable (a = b)
  | .mk t1 a1 c1, .mk t2 a2 c2 =>
    if ht : t1 = t2 then
      if ha : a1 = a2 then
        match elementListDecEq c1 c2 with
        | isTrue hc => isTrue (by rw [ht, ha, hc])
        | isFalse hc => isFalse (fun h => hc (by cases h; rfl))
      else isFalse (fun h => ha (by cases h; rfl))
    else isFalse (fun h => ht (by cases h; rfl))

def elementListDecEq : (a b : List Element) → Decidable (a = b)
  | [], [] => isTrue rfl
  | [], _ :: _ => isFalse (fun h => by cases h)
  | _ :: _, [] => isFalse (fun h => by cases h)
  | x :: xs, y :: ys =>
    match elementDecEq x y with
    | isTrue h1 =>
      match elementListDecEq xs ys with
      | isTrue h2 => isTrue (by rw [h1, h2])
      | isFalse h2 => isFalse (fun h => h2 (by cases h; rfl))
    | isFalse h1 => isFalse (fun h => h1 (by cases h; rfl))

end

instance : DecidableEq Element := elementDecEq

/-! ## Claim C5 -/

/-- Events surviving the skip-empty-OID-and-seen filter (document order). -/
def dedupEvents : List Element → List String → List Element
  | [], _ => []
  | ev :: rest, seen =>
    if ev.get "OID" "" = "" ∨ ev.get "OID" "" ∈ seen then dedupEvents rest seen
    else ev :: dedupEvents rest (ev.get "OID" "" :: seen)

theorem eventDefRowsAux_eq_dedup (ns : NSMap) (evs : List Element) : ∀ seen,
    eventDefRowsAux ns evs seen
      = (dedupEvents evs seen).map (fun e => mkEventDefRow e ns) := by
  induction evs with
  | nil => intro _; rfl
  | cons ev rest ih =>
    intro seen
    by_cases h : ev.get "OID" "" = "" ∨ ev.get "OID" "" ∈ seen
    · simp [eventDefRowsAux, dedupEvents, h, ih]
    · simp [eventDefRowsAux, dedupEvents, h, ih]

theorem dedupEvents_mem (evs : List Element) : ∀ seen e, e ∈ dedupEvents evs seen →
    e ∈ evs ∧ e.get "OID" "" ≠ "" ∧ e.get "OID" "" ∉ seen := by
  induction evs with
  | nil => intro seen e h; cases h
  | cons u rest ih =>
    intro seen e h
    by_cases hu : u.get "OID" "" = "" ∨ u.get "OID" "" ∈ seen
    · rw [dedupEvents, if_pos hu] at h
      obtain ⟨h1, h2, h3⟩ := ih seen e h
      exact ⟨List.mem_cons_of_mem u h1, h2, h3⟩
    · rw [dedupEvents, if_neg hu] at h
      push_neg at hu
      rcases List.mem_cons.mp h with rfl | h'
      · exact ⟨List.mem_cons_self _ _, hu.1, hu.2⟩
      · obtain ⟨h1, h2, h3⟩ := ih (u.get "OID" "" :: seen) e h'
        exact ⟨List.mem_cons_of_mem u h1, h2, fun hc => h3 (List.mem_cons_of_mem _ hc)⟩

theorem dedupEvents_oids_nodup (evs : List Element) : ∀ seen,
    ((dedupEvents evs seen).map (fun e => e.get "OID" "")).Nodup := by
  induction evs with
  | nil => intro _; exact List.nodup_nil
  | cons u rest ih =>
    intro seen
    by_cases hu : u.get "OID" "" = "" ∨ u.get "OID" "" ∈ seen
    · rw [dedupEvents, if_pos hu]; exact ih seen
    · rw [dedupEvents, if_neg hu]
      rw [List.map_cons, List.nodup_cons]
      refine ⟨?_, ih (u.get "OID" "" :: seen)⟩
      intro hc
      obtain ⟨e, he, hk⟩ := List.mem_map.mp hc
      have := (dedupEvents_mem rest (u.get "OID" "" :: seen) e he).2.2
      exact this (hk ▸ List.mem_cons_self _ _)

theorem dedupEvents_first_occurrence (evs : List Element) : ∀ seen e,
    e ∈ dedupEvents evs seen →
      evs.find? (fun u => u.get "OID" "" == e.get "OID" "") = some e := by
  induction evs with
  | nil => intro seen e h; cases h
  | cons u rest ih =>
    intro seen e h
    by_cases hu : u.get "OID" "" = "" ∨ u.get "OID" "" ∈ seen
    · rw [dedupEvents, if_pos hu] at h
      obtain ⟨-, hne, hns⟩ := dedupEvents_mem rest seen e h
      have hkey : u.get "OID" "" ≠ e.get "OID" "" := by
        rcases hu with hu | hu
        · rw [hu]; exact fun hc => hne hc.symm
        · exact fun hc => hns (hc ▸ hu)
      have hb : (u.get "OID" "" == e.get "OID" "") = false := by simpa using hkey
      rw [List.find?_cons, hb]
      exact ih seen e h
    · rw [dedupEvents, if_neg hu] at h
      rcases List.mem_cons.mp h with rfl | h'
      · have hb : (e.get "OID" "" == e.get "OID" "") = true := by simp
        rw [List.find?_cons, hb]
      · have hns := (dedupEvents_mem rest (u.get "OID" "" :: seen) e h').2.2
        have hkey : u.get "OID" "" ≠ e.get "OID" "" := fun hc =>
          hns (hc ▸ List.mem_cons_self _ _)
        have hb : (u.get "OID" "" == e.get "OID" "") = false := by simpa using hkey
        rw [List.find?_cons, hb]
        exact ih (u.get "OID" "" :: seen) e h'

/-- The rows of `extract_event_definitions`, in dedup form. -/
theorem extract_defs_rows_eq (root : Element) (ns : NSMap) :
    (extract_event_definitions root ns).rows
      = (dedupEvents (find_elements_once root "StudyEventDef" ns) []).map
          (fun e => mkEventDefRow e ns) := by
  unfold extract_event_definitions
  by_cases h : (find_elements_once root "StudyEventDef" ns).isEmpty
  · have hnil : find_elements_once root "StudyEventDef" ns = [] :=
      List.isEmpty_iff.mp h
    simp [h, hnil, dedupEvents]
  · simp only [h, Bool.false_eq_true, if_false]
    exact eventDefRowsAux_eq_dedup ns _ []

/-- **C5**: event-definition rows are unique by event OID and
event-instrument rows are unique by (event OID, form OID): each table
equals the map of its row builder over the key-deduplicated element list
(first occurrence wins, document order), the key lists are duplicate-free,
and every kept element is the first element of the document-order list
with its key. -/
theorem claim_C5_dedup_unique (root : Element) (ns : NSMap) :
    ((extract_event_definitions root ns).rows
        = (dedupEvents (find_elements_once root "StudyEventDef" ns) []).map
            (fun e => mkEventDefRow e ns)) ∧
    (((dedupEvents (find_elements_once root "StudyEventDef" ns) []).map
        (fun e => e.get "OID" "")).Nodup) ∧
    (∀ e ∈ dedupEvents (find_elements_once root "StudyEventDef" ns) [],
      (find_elements_once root "StudyEventDef" ns).find?
        (fun u => u.get "OID" "" == e.get "OID" "") = some e) ∧
    ((extract_event_instruments root ns).rows
        = (dedupCombos (flatFormRefs ns (find_elements_once root "StudyEventDef" ns)) []).map
            (mkInstFromTriple ns (formNamesAux (find_elements_once root "FormDef" ns) [])
              (extract_metadata_versions root ns))) ∧
    (((dedupCombos (flatFormRefs ns (find_elements_once root "StudyEventDef" ns)) []).map
        comboKey).Nodup) ∧
    (∀ t ∈ dedupCombos (flatFormRefs ns (find_elements_once root "StudyEventDef" ns)) [],
      (flatFormRefs ns (find_elements_once root "StudyEventDef" ns)).find?
        (fun u => comboKey u == comboKey t) = some t) :=
  ⟨extract_defs_rows_eq root ns,
   dedupEvents_oids_nodup _ [],
   fun e he => dedupEvents_first_occurrence _ [] e he,
   extract_instruments_rows_eq root ns,
   dedupCombos_keys_nodup _ [],
   fun t ht => dedupCombos_first_occurrence _ [] t ht⟩

/-- A form reference used by the C5 witness document. -/
def frC5 : Element := .mk "\x7bn\x7dFormRef" [("FormOID", "F1")] []

/-- An event holding the same (event, form) reference twice. -/
def evC5a : Element :=
  .mk "\x7bn\x7dStudyEventDef" [("OID", "E1"), ("Name", "First")] [frC5, frC5]

/-- A second event with a duplicate OID. -/
def evC5b : Element := .mk "\x7bn\x7dStudyEventDef" [("OID", "E1"), ("Name", "Second")] []

def rootC5 : Element := .mk "ODM" [] [evC5a, evC5b]

def nsC5 : NSMap := ⟨"n", "r"⟩

/-- Witness for C5 on a document with a repeated event OID and a repeated
(event, form) pair. -/
theorem claim_C5_dedup_unique_witness :
    (find_elements_once rootC5 "StudyEventDef" nsC5).find?
        (fun u => u.get "OID" "" == evC5a.get "OID" "") = some evC5a ∧
    (flatFormRefs nsC5 (find_elements_once rootC5 "StudyEventDef" nsC5)).find?
        (fun u => comboKey u == comboKey ("E1", "First", frC5))
      = some ("E1", "First", frC5) :=
  ⟨(claim_C5_dedup_unique rootC5 nsC5).2.2.1 evC5a (by decide),
   (claim_C5_dedup_unique rootC5 nsC5).2.2.2.2.2 ("E1", "First", frC5) (by decide)⟩

/-! ## Claim C9 -/

theorem mem_insertNew {x y : String} {l : List String} :
    x ∈ insertNew y l ↔ x = y ∨ x ∈ l := by
  unfold insertNew
  split
  · rename_i h
    constructor
    · exact fun hx => Or.inr hx
    · rintro (rfl | hx)
      · exact h
      · exact hx
  · constructor
    · intro hx
      rcases List.mem_append.mp hx with hx | hx
      · exact Or.inr hx
      · simp at hx
        exact Or.inl hx
    · rintro (rfl | hx)
      · exact List.mem_append.mpr (Or.inr (by simp))
      · exact List.mem_append.mpr (Or.inl hx)

theorem mem_typesFold (l : List Element) : ∀ (acc : List String) (x : String),
    (x ∈ l.foldl
        (fun acc m => let t := m.get "Type" ""; if t ≠ "" then insertNew t acc else acc)
        acc)
      ↔ x ∈ acc ∨ (x ≠ "" ∧ ∃ m ∈ l, m.get "Type" "" = x) := by
  induction l with
  | nil => simp
  | cons m rest ih =>
    intro acc x
    rw [List.foldl_cons]
    by_cases h : m.get "Type" "" = ""
    · simp only [h]
      rw [if_neg (by simp)]
      rw [ih]
      constructor
      · rintro (hx | ⟨hne, m', hm', hx⟩)
        · exact Or.inl hx
        · exact Or.inr ⟨hne, m', List.mem_cons_of_mem _ hm', hx⟩
      · rintro (hx | ⟨hne, m', hm', hx⟩)
        · exact Or.inl hx
        · rcases List.mem_cons.mp hm' with rfl | hm''
          · exact absurd (h ▸ hx) (Ne.symm hne)
          · exact Or.inr ⟨hne, m', hm'', hx⟩
    · simp only
      rw [if_pos (by simpa using h)]
      rw [ih]
      constructor
      · rintro (hx | ⟨hne, m', hm', hx⟩)
        · rcases mem_insertNew.mp hx with rfl | hx'
          · exact Or.inr ⟨h, m, List.mem_cons_self _ _, rfl⟩
          · exact Or.inl hx'
        · exact Or.inr ⟨hne, m', List.mem_cons_of_mem _ hm', hx⟩
      · rintro (hx | ⟨hne, m', hm', hx⟩)
        · exact Or.inl (mem_insertNew.mpr (Or.inr hx))
        · rcases List.mem_cons.mp hm' with rfl | hm''
          · exact Or.inl (mem_insertNew.mpr (Or.inl hx.symm))
          · exact Or.inr ⟨hne, m', hm'', hx⟩

theorem mem_monitoringTypes (fr : Element) (ns : NSMap) (x : String) :
    x ∈ monitoringTypes fr ns
      ↔ x ≠ "" ∧ ∃ m ∈ monitoringElems fr ns, m.get "Type" "" = x := by
  unfold monitoringTypes
  rw [mem_typesFold]
  simp

/-- **C9**: a row whose form reference has no located monitoring
sub-element has "N" in all three monitoring columns; in general each of
SDV / Medical Review / Data Review is "Y" exactly when that category name
occurs among the `Type` attribute values of the monitoring sub-elements
found under the form reference; and every emitted row is built by
`mkInstRecord` from its event element and form reference. -/
theorem claim_C9_monitoring_flags :
    (∀ en fr fo fN sM (ns : NSMap), monitoringElems fr ns = [] →
      (mkInstRecord en fr fo fN sM ns).sdv = "N" ∧
      (mkInstRecord en fr fo fN sM ns).medicalReview = "N" ∧
      (mkInstRecord en fr fo fN sM ns).dataReview = "N") ∧
    (∀ en fr fo fN sM (ns : NSMap),
      ((mkInstRecord en fr fo fN sM ns).sdv = "Y" ↔
        ∃ m ∈ monitoringElems fr ns, m.get "Type" "" = "SDV") ∧
      ((mkInstRecord en fr fo fN sM ns).medicalReview = "Y" ↔
        ∃ m ∈ monitoringElems fr ns, m.get "Type" "" = "Medical Review") ∧
      ((mkInstRecord en fr fo fN sM ns).dataReview = "Y" ↔
        ∃ m ∈ monitoringElems fr ns, m.get "Type" "" = "Data Review")) ∧
    (∀ root ns r, r ∈ (extract_event_instruments root ns).rows →
      ∃ ev fr, ev ∈ find_elements_once root "StudyEventDef" ns ∧
        fr ∈ findFormRefs ev ns ∧
        r = mkInstRecord (ev.get "Name" "") fr (fr.get "FormOID" "")
              (formNamesAux (find_elements_once root "FormDef" ns) [])
              (extract_metadata_versions root ns) ns) := by
  refine ⟨?_, ?_, ?_⟩
  · intro en fr fo fN sM ns h
    have ht : monitoringTypes fr ns = [] := by
      unfold monitoringTypes
      rw [h, List.foldl_nil]
    refine ⟨?_, ?_, ?_⟩ <;>
      simp [mkInstRecord, ht]
  · intro en fr fo fN sM ns
    refine ⟨?_, ?_, ?_⟩
    · show (if "SDV" ∈ monitoringTypes fr ns then "Y" else "N") = "Y" ↔ _
      by_cases hm : "SDV" ∈ monitoringTypes fr ns
      · simpa [hm] using (mem_monitoringTypes fr ns "SDV").mp hm |>.2
      · rw [if_neg hm]
        simp only [show ("N" : String) ≠ "Y" by decide, false_iff]
        intro hex
        exact hm ((mem_monitoringTypes fr ns "SDV").mpr ⟨by decide, hex⟩)
    · show (if "Medical Review" ∈ monitoringTypes fr ns then "Y" else "N") = "Y" ↔ _
      by_cases hm : "Medical Review" ∈ monitoringTypes fr ns
      · simpa [hm] using (mem_monitoringTypes fr ns "Medical Review").mp hm |>.2
      · rw [if_neg hm]
        simp only [show ("N" : String) ≠ "Y" by decide, false_iff]
        intro hex
        exact hm ((mem_monitoringTypes fr ns "Medical Review").mpr ⟨by decide, hex⟩)
    · show (if "Data Review" ∈ monitoringTypes fr ns then "Y" else "N") = "Y" ↔ _
      by_cases hm : "Data Review" ∈ monitoringTypes fr ns
      · simpa [hm] using (mem_monitoringTypes fr ns "Data Review").mp hm |>.2
      · rw [if_neg hm]
        simp only [show ("N" : String) ≠ "Y" by decide, false_iff]
        intro hex
        exact hm ((mem_monitoringTypes fr ns "Data Review").mpr ⟨by decide, hex⟩)
  · intro root ns r h
    obtain ⟨ev, fr, h1, h2, -, h4⟩ := instRow_provenance root ns r h
    exact ⟨ev, fr, h1, h2, h4⟩

/-- Witness for C9: a form reference with no monitoring sub-element gets
"N" in all three monitoring columns. -/
theorem claim_C9_monitoring_flags_witness :
    (mkInstRecord "E" (Element.mk "\x7bn\x7dFormRef" [("FormOID", "F1")] [])
        "F1" [] [] ⟨"n", "r"⟩).sdv = "N" ∧
    (mkInstRecord "E" (Element.mk "\x7bn\x7dFormRef" [("FormOID", "F1")] [])
        "F1" [] [] ⟨"n", "r"⟩).medicalReview = "N" ∧
    (mkInstRecord "E" (Element.mk "\x7bn\x7dFormRef" [("FormOID", "F1")] [])
        "F1" [] [] ⟨"n", "r"⟩).dataReview = "N" :=
  claim_C9_monitoring_flags.1 "E" (Element.mk "\x7bn\x7dFormRef" [("FormOID", "F1")] [])
    "F1" [] [] ⟨"n", "r"⟩ (by decide)

/-! ## Namespace resolution never yields empty URIs -/

theorem strContains_ne_empty {s pat : String} (hp : pat.toList ≠ [])
    (h : strContains s pat = true) : s ≠ "" := by
  intro hs
  subst hs
  unfold strContains substrAux at h
  rw [show ("" : String).toList = [] from rfl] at h
  cases hpl : pat.toList with
  | nil => exact hp hpl
  | cons c cs =>
    rw [hpl] at h
    simp [List.isPrefixOf] at h

theorem strLower_contains_ne_empty {s pat : String} (hp : pat.toList ≠ [])
    (h : strContains (strLower s) pat = true) : s ≠ "" := by
  intro hs
  subst hs
  exact strContains_ne_empty hp h (by decide)

theorem nsAttrStep_ne_empty (p : String × String) (acc : String × String)
    (h1 : acc.1 ≠ "") (h2 : acc.2 ≠ "") :
    (nsAttrStep p acc).1 ≠ "" ∧ (nsAttrStep p acc).2 ≠ "" := by
  unfold nsAttrStep
  by_cases hx : strContains p.1 "xmlns" = true
  · rw [if_pos hx]
    by_cases ho : (strContains (strLower p.2) "odm" && strContains (strLower p.2) "cdisc") = true
    · have hp2 : p.2 ≠ "" :=
        strLower_contains_ne_empty (by decide) (Bool.and_elim_left ho)
      by_cases hrc : strContains (strLower p.2) "redcap" = true
      · simp only [ho, hrc, if_true]
        exact ⟨hp2, hp2⟩
      · simp only [ho, if_true, if_neg hrc]
        exact ⟨hp2, h2⟩
    · by_cases hrc : strContains (strLower p.2) "redcap" = true
      · have hp2 : p.2 ≠ "" := strLower_contains_ne_empty (by decide) hrc
        simp only [if_neg ho, if_pos hrc]
        exact ⟨h1, hp2⟩
      · simp only [if_neg ho, if_neg hrc]
        exact ⟨h1, h2⟩
  · rw [if_neg hx]
    exact ⟨h1, h2⟩

theorem nsFold_ne_empty (l : List (String × String)) : ∀ acc : String × String,
    acc.1 ≠ "" → acc.2 ≠ "" →
    (l.foldl (fun acc p => nsAttrStep p acc) acc).1 ≠ "" ∧
    (l.foldl (fun acc p => nsAttrStep p acc) acc).2 ≠ "" := by
  induction l with
  | nil => intro acc h1 h2; exact ⟨h1, h2⟩
  | cons p rest ih =>
    intro acc h1 h2
    rw [List.foldl_cons]
    obtain ⟨h1', h2'⟩ := nsAttrStep_ne_empty p acc h1 h2
    exact ih _ h1' h2'

/-- The resolved namespace URIs are never the empty string, so the
truthiness guards in the form-reference search always pass. -/
theorem get_namespace_map_ne_empty (root : Element) :
    (get_namespace_map root).odm ≠ "" ∧ (get_namespace_map root).REDCap ≠ "" := by
  unfold get_namespace_map
  apply nsFold_ne_empty
  · by_cases ht : strContains root.tag rbr = true
    · rw [if_pos ht]
      by_cases ho : strContains
          (strLower (String.mk ((root.tag.toList.takeWhile (fun c => c ≠ '\x7d')).drop 1)))
          "odm" = true
      · rw [if_pos ho]
        exact strLower_contains_ne_empty (by decide) ho
      · rw [if_neg ho]
        exact (show defaultOdmNs ≠ "" by decide)
    · rw [if_neg ht]
      exact (show defaultOdmNs ≠ "" by decide)
  · exact (show defaultRedcapNs ≠ "" by decide)

/-! ## Claim C3 -/

/-- Modelled from the spec (claim C3's words): locate an event's
form-reference children by (a) fully-qualified search with the resolved
core namespace URI, returning on any match; (b) else prefix-qualified
search (the conventional prefix is bound to the same core URI); (c) else
unqualified tag-name search; followed by a final manual tag-SUFFIX match
as a last resort. -/
def specC3FormRefSearch (event : Element) (ns : NSMap) : List Element :=
  let a := findallChild event (qualTag ns.odm "FormRef")
  if !a.isEmpty then a
  else
    let b := findallChild event (qualTag ns.odm "FormRef")
    if !b.isEmpty then b
    else
      let c := findallChild event "FormRef"
      if !c.isEmpty then c
      else event.children.filter (fun ch => strEndsWith ch.tag "FormRef")

/-- The amended spec search: identical, except that the final manual tier
accepts any child whose tag CONTAINS "FormRef" as a substring (or ends
with it — subsumed by the substring test), matching the source. -/
def specC3FormRefSearchAmended (event : Element) (ns : NSMap) : List Element :=
  let a := findallChild event (qualTag ns.odm "FormRef")
  if !a.isEmpty then a
  else
    let b := findallChild event (qualTag ns.odm "FormRef")
    if !b.isEmpty then b
    else
      let c := findallChild event "FormRef"
      if !c.isEmpty then c
      else event.children.filter
        (fun ch => strContains ch.tag "FormRef" || strEndsWith ch.tag "FormRef")

/-- An event whose only child's tag contains "FormRef" without ending in
it: the code's manual substring tier picks it up, a tag-suffix match does
not. -/
def evC3 : Element :=
  .mk "\x7bhttp://www.cdisc.org/ns/odm/v1.3\x7dStudyEventDef" [("OID", "E1")]
    [.mk "FormReference" [("FormOID", "F1")] []]

def rootC3 : Element := .mk "ODM" [] [evC3]

/-- **C3 counterexample**: with the resolved namespace map, the extractor's
form-reference search returns the child tagged "FormReference" (substring
match), while the claim's three-tier-plus-final-tag-suffix search returns
nothing — the final manual tier is a substring match, not a suffix match. -/
theorem claim_C3_counterexample :
    get_namespace_map rootC3 = ⟨defaultOdmNs, defaultRedcapNs⟩ ∧
    (findFormRefs evC3 (get_namespace_map rootC3)).map Element.tag = ["FormReference"] ∧
    (specC3FormRefSearch evC3 (get_namespace_map rootC3)).map Element.tag = [] := by
  refine ⟨by decide, by decide, by decide⟩

/-- **C3 amended**: for every event element, under the resolved namespace
map the extractor's form-reference search equals the three-tier fallback
(fully-qualified with the resolved core URI, then prefix-qualified, then
unqualified — each tier only if the previous one matched nothing) followed
by a final manual tag-SUBSTRING match as a last resort. -/
theorem claim_C3_amended_formref_search (event root : Element) :
    findFormRefs event (get_namespace_map root)
      = specC3FormRefSearchAmended event (get_namespace_map root) := by
  obtain ⟨ho, hr⟩ := get_namespace_map_ne_empty root
  unfold findFormRefs specC3FormRefSearchAmended
  rw [if_pos ho]
  by_cases ha : (findallChild event (qualTag (get_namespace_map root).odm "FormRef")).isEmpty
  · by_cases hc : (findallChild event "FormRef").isEmpty
    · simp [ha, hc, hr]
    · simp [ha, hc, hr]
  · simp [ha]

/-! ## Claim C4 -/

theorem setEq_true_iff (a b : List String) :
    setEq a b = true ↔ ∀ s, (s ∈ a ↔ s ∈ b) := by
  unfold setEq
  rw [Bool.and_eq_true, List.all_eq_true, List.all_eq_true]
  constructor
  · rintro ⟨h1, h2⟩ s
    exact ⟨fun hs => by simpa using h1 s hs, fun hs => by simpa using h2 s hs⟩
  · intro h
    exact ⟨fun s hs => by simpa using (h s).mp hs,
           fun s hs => by simpa using (h s).mpr hs⟩

def evC4 : Element :=
  .mk "\x7bn\x7dStudyEventDef" [("OID", "E1"), ("Name", "Visit 1")]
    [.mk "\x7bn\x7dFormRef" [("FormOID", "F1")] []]

def rootC4 : Element := .mk "ODM" [] [evC4]

def nsC4 : NSMap := ⟨"n", "r"⟩

/-- **C4 counterexample**: in a document with no metadata-version elements,
the emitted row's form "F1" is declared by NO site, and its declaring-site
set (empty) EQUALS the full set of known non-excluded sites (also empty) —
the claim's "All sites" condition holds — yet the Site column reads
"Unknown Site", because the code checks the empty case first. -/
theorem claim_C4_counterexample :
    declaringSites "F1" (extract_metadata_versions rootC4 nsC4)
      = (extract_metadata_versions rootC4 nsC4).map (fun p => p.1) ∧
    (flatFormRefs nsC4 (find_elements_once rootC4 "StudyEventDef" nsC4)).map comboKey
      = [("E1", "F1")] ∧
    (extract_event_instruments rootC4 nsC4).rows.map (fun r => r.site)
      = ["Unknown Site"] ∧
    "Unknown Site" ≠ "All sites" := by
  refine ⟨by decide, by decide, by decide, by decide⟩

/-- **C4 amended**: for every emitted instrument row, the Site column is
`siteDisplayFor` of the row's form OID, where "Unknown Site" takes
precedence: it is "Unknown Site" when no site declares the form, else
"All sites" when the declaring-site set equals (as a set, `setEq`) the
full set of known non-excluded sites, else the sorted comma-joined list
of the declaring site names. -/
theorem claim_C4_amended_site_display :
    (∀ (a b : List String), setEq a b = true ↔ ∀ s, (s ∈ a ↔ s ∈ b)) ∧
    (∀ fo (m : SiteFormsMap),
      (declaringSites fo m = [] → siteDisplayFor fo m = "Unknown Site") ∧
      (declaringSites fo m ≠ [] →
        setEq (declaringSites fo m) (m.map (fun p => p.1)) = true →
        siteDisplayFor fo m = "All sites") ∧
      (declaringSites fo m ≠ [] →
        setEq (declaringSites fo m) (m.map (fun p => p.1)) = false →
        siteDisplayFor fo m
          = String.intercalate ", " (sortStrings (declaringSites fo m)))) ∧
    (∀ root ns r, r ∈ (extract_event_instruments root ns).rows →
      ∃ fo, r.site = siteDisplayFor fo (extract_metadata_versions root ns)) := by
  refine ⟨setEq_true_iff, ?_, ?_⟩
  · intro fo m
    refine ⟨?_, ?_, ?_⟩
    · intro h
      unfold siteDisplayFor
      rw [if_pos (List.isEmpty_iff.mpr h)]
    · intro hne hs
      unfold siteDisplayFor
      rw [if_neg (by simpa [List.isEmpty_iff] using hne), if_pos hs]
    · intro hne hs
      unfold siteDisplayFor
      rw [if_neg (by simpa [List.isEmpty_iff] using hne),
          if_neg (by simp [hs])]
  · intro root ns r h
    obtain ⟨ev, fr, -, -, -, rfl⟩ := instRow_provenance root ns r h
    exact ⟨fr.get "FormOID" "", rfl⟩

def siteMapC4 : SiteFormsMap :=
  [("Site A", ⟨"S1", ["F1"]⟩), ("Site B", ⟨"S2", ["F1", "F2"]⟩)]

/-- Witness for C4's amended claim on concrete site maps: a form in no
site, a form in every site, and a form in a strict subset. -/
theorem claim_C4_amended_site_display_witness :
    siteDisplayFor "F0" [] = "Unknown Site" ∧
    siteDisplayFor "F1" siteMapC4 = "All sites" ∧
    siteDisplayFor "F2" siteMapC4
      = String.intercalate ", " (sortStrings (declaringSites "F2" siteMapC4)) :=
  ⟨(claim_C4_amended_site_display.2.1 "F0" []).1 (by decide),
   (claim_C4_amended_site_display.2.1 "F1" siteMapC4).2.1 (by decide) (by decide),
   (claim_C4_amended_site_display.2.1 "F2" siteMapC4).2.2 (by decide) (by decide)⟩

/-! ## Claim C7 -/

theorem updSiteMap_keys (m : SiteFormsMap) (name oid : String) (forms : List String) :
    (updSiteMap m name oid forms).map (fun p => p.1) = m.map (fun p => p.1) ∨
    (updSiteMap m name oid forms).map (fun p => p.1)
      = m.map (fun p => p.1) ++ [name] := by
  unfold updSiteMap
  split
  · left
    rw [List.map_map]
    apply List.map_congr_left
    intro p _
    show (if p.1 == name then (p.1, SiteInfo.mk p.2.oid (setUnion p.2.forms forms)) else p).1
      = p.1
    split <;> rfl
  · right
    rw [List.map_append]
    rfl

theorem mvFold_ignored_not_key (ns : NSMap) (mvs : List Element) : ∀ m : SiteFormsMap,
    IGNORED_SITE ∉ m.map (fun p => p.1) →
    IGNORED_SITE ∉ (mvFold ns mvs m).map (fun p => p.1) := by
  induction mvs with
  | nil => intro m h; exact h
  | cons mv rest ih =>
    intro m h
    by_cases hn : mvSiteName mv = IGNORED_SITE
    · rw [mvFold, if_pos hn]
      exact ih m h
    · rw [mvFold, if_neg hn]
      apply ih
      rcases updSiteMap_keys m (mvSiteName mv) (mv.get "OID" "") (collectFormOids mv ns)
        with hk | hk
      · rw [hk]; exact h
      · rw [hk]
        intro hc
        rcases List.mem_append.mp hc with hc | hc
        · exact h hc
        · simp only [List.mem_singleton] at hc
          exact hn hc.symm

theorem declaringSites_subset (fo : String) (m : SiteFormsMap) :
    declaringSites fo m ⊆ m.map (fun p => p.1) := by
  unfold declaringSites
  intro x hx
  obtain ⟨p, hp, rfl⟩ := List.mem_map.mp hx
  exact List.mem_map.mpr ⟨p, List.mem_of_mem_filter hp, rfl⟩

/-- **C7**: the excluded site name "REDCap Cloud Demo" is never a key of
the site/form map (so it never counts toward the full-site-set comparison
behind "All sites"), and the Site column of every emitted row is either
"Unknown Site", "All sites", or a sorted comma-join of site names drawn
from that map's keys — so the excluded name never appears in it. -/
theorem claim_C7_ignored_site_excluded (root : Element) (ns : NSMap) :
    IGNORED_SITE ∉ (extract_metadata_versions root ns).map (fun p => p.1) ∧
    (∀ r, r ∈ (extract_event_instruments root ns).rows →
      r.site = "Unknown Site" ∨ r.site = "All sites" ∨
      ∃ sites : List String, sites ≠ [] ∧ IGNORED_SITE ∉ sites ∧
        sites ⊆ (extract_metadata_versions root ns).map (fun p => p.1) ∧
        r.site = String.intercalate ", " (sortStrings sites)) := by
  have hkey : IGNORED_SITE ∉ (extract_metadata_versions root ns).map (fun p => p.1) := by
    unfold extract_metadata_versions
    exact mvFold_ignored_not_key ns _ [] (by simp)
  refine ⟨hkey, ?_⟩
  intro r h
  obtain ⟨ev, fr, -, -, -, rfl⟩ := instRow_provenance root ns r h
  have hsite : (mkInstRecord (ev.get "Name" "") fr (fr.get "FormOID" "")
      (formNamesAux (find_elements_once root "FormDef" ns) [])
      (extract_metadata_versions root ns) ns).site
      = siteDisplayFor (fr.get "FormOID" "") (extract_metadata_versions root ns) := rfl
  rw [hsite]
  unfold siteDisplayFor
  by_cases he : (declaringSites (fr.get "FormOID" "") (extract_metadata_versions root ns)).isEmpty
  · rw [if_pos he]
    exact Or.inl rfl
  · rw [if_neg he]
    by_cases hs : setEq (declaringSites (fr.get "FormOID" "") (extract_metadata_versions root ns))
        ((extract_metadata_versions root ns).map (fun p => p.1)) = true
    · rw [if_pos hs]
      exact Or.inr (Or.inl rfl)
    · rw [if_neg hs]
      refine Or.inr (Or.inr ⟨declaringSites (fr.get "FormOID" "") (extract_metadata_versions root ns),
        ?_, ?_, declaringSites_subset _ _, rfl⟩)
      · intro hc
        rw [hc] at he
        exact he rfl
      · intro hc
        exact hkey (declaringSites_subset _ _ hc)

def mvC7a : Element :=
  .mk "\x7bn\x7dMetaDataVersion" [("OID", "MV1"), ("Name", "REDCap Cloud Demo")]
    [.mk "\x7bn\x7dFormDef" [("OID", "F1"), ("Name", "Demo Form")] []]

def mvC7b : Element :=
  .mk "\x7bn\x7dMetaDataVersion" [("OID", "MV2"), ("Name", "Site A")]
    [.mk "\x7bn\x7dFormDef" [("OID", "F1"), ("Name", "Form One")] []]

def mvC7c : Element :=
  .mk "\x7bn\x7dMetaDataVersion" [("OID", "MV3"), ("Name", "Site B")] []

def evC7 : Element :=
  .mk "\x7bn\x7dStudyEventDef" [("OID", "E1"), ("Name", "V1")]
    [.mk "\x7bn\x7dFormRef" [("FormOID", "F1")] []]

def rootC7 : Element := .mk "ODM" [] [mvC7a, mvC7b, mvC7c, evC7]

def nsC7 : NSMap := ⟨"n", "r"⟩

/-- The single row extracted from the C7 witness document. -/
def rowC7 : InstRow :=
  ⟨"V1", "Demo Form", "", "Site A", "N", "N", "N", "N", "N", "N"⟩

/-- Witness for C7 on a document whose excluded site declares the form:
the row's Site is a comma-join of names that never include the excluded
site. -/
theorem claim_C7_ignored_site_excluded_witness :
    rowC7.site = "Unknown Site" ∨ rowC7.site = "All sites" ∨
    ∃ sites : List String, sites ≠ [] ∧ IGNORED_SITE ∉ sites ∧
      sites ⊆ (extract_metadata_versions rootC7 nsC7).map (fun p => p.1) ∧
      rowC7.site = String.intercalate ", " (sortStrings sites) :=
  (claim_C7_ignored_site_excluded rootC7 nsC7).2 rowC7 (by decide)

/-! ## Claim C8 -/

/-- The form set stored for a site name (empty when the name is absent). -/
def siteForms (m : SiteFormsMap) (name : String) : List String :=
  match m.find? (fun p => p.1 == name) with
  | some p => p.2.forms
  | none => []

theorem mem_setUnion {x : String} (xs : List String) : ∀ l,
    x ∈ setUnion l xs ↔ x ∈ l ∨ x ∈ xs := by
  induction xs with
  | nil => intro l; simp [setUnion]
  | cons y ys ih =>
    intro l
    unfold setUnion at ih ⊢
    rw [List.foldl_cons, ih (insertNew y l), mem_insertNew]
    constructor
    · rintro ((rfl | hl) | hys)
      · exact Or.inr (List.mem_cons_self _ _)
      · exact Or.inl hl
      · exact Or.inr (List.mem_cons_of_mem _ hys)
    · rintro (hl | hys)
      · exact Or.inl (Or.inr hl)
      · rcases List.mem_cons.mp hys with rfl | hys'
        · exact Or.inl (Or.inl rfl)
        · exact Or.inr hys'

theorem find?_map_upd (m : SiteFormsMap) (name n' : String) (forms : List String) :
    (m.map (fun p =>
        if p.1 == name then (p.1, SiteInfo.mk p.2.oid (setUnion p.2.forms forms)) else p)).find?
        (fun p => p.1 == n')
      = (m.find? (fun p => p.1 == n')).map
          (fun p =>
            if p.1 == name then (p.1, SiteInfo.mk p.2.oid (setUnion p.2.forms forms)) else p) := by
  induction m with
  | nil => rfl
  | cons p rest ih =>
    rw [List.map_cons, List.find?_cons, List.find?_cons]
    have hfst : (if p.1 == name then (p.1, SiteInfo.mk p.2.oid (setUnion p.2.forms forms))
        else p).1 = p.1 := by
      split <;> rfl
    rw [hfst]
    cases hb : p.1 == n' with
    | true => rfl
    | false => exact ih

theorem siteForms_updSiteMap_same (m : SiteFormsMap) (name oid : String)
    (forms : List String) (x : String) :
    x ∈ siteForms (updSiteMap m name oid forms) name
      ↔ x ∈ siteForms m name ∨ x ∈ forms := by
  unfold updSiteMap
  split
  · rename_i hsome
    obtain ⟨p, hp⟩ := Option.isSome_iff_exists.mp hsome
    have hp1 := List.find?_some hp
    unfold siteForms
    rw [find?_map_upd, hp]
    rw [Option.map_some']
    rw [if_pos hp1]
    exact mem_setUnion forms p.2.forms
  · rename_i hnone
    have hn : m.find? (fun p => p.1 == name) = none := by
      cases hfind : m.find? (fun p => p.1 == name) with
      | none => rfl
      | some p => rw [hfind] at hnone; simp at hnone
    unfold siteForms
    rw [List.find?_append, hn]
    simp [List.find?_cons]

theorem siteForms_updSiteMap_other (m : SiteFormsMap) (name oid n' : String)
    (forms : List String) (hne : n' ≠ name) :
    siteForms (updSiteMap m name oid forms) n' = siteForms m n' := by
  unfold updSiteMap
  split
  · unfold siteForms
    rw [find?_map_upd]
    cases hfind : m.find? (fun p => p.1 == n') with
    | none => rfl
    | some q =>
      have hq1 := List.find?_some hfind
      have hq1' : q.1 = n' := by simpa using hq1
      rw [Option.map_some', if_neg (by simp [hq1', hne])]
  · unfold siteForms
    rw [List.find?_append]
    cases hfind : m.find? (fun p => p.1 == n') with
    | none =>
      simp only [Option.none_or]
      rw [List.find?_cons]
      have hb : (((name, SiteInfo.mk oid forms)).1 == n') = false :=
        beq_eq_false_iff_ne.mpr (Ne.symm hne)
      rw [hb]
      rfl
    | some q => rfl

theorem mem_siteForms_mvFold (ns : NSMap) (mvs : List Element) :
    ∀ (m : SiteFormsMap) (name x : String),
    x ∈ siteForms (mvFold ns mvs m) name
      ↔ x ∈ siteForms m name ∨
        (name ≠ IGNORED_SITE ∧
          ∃ mv ∈ mvs, mvSiteName mv = name ∧ x ∈ collectFormOids mv ns) := by
  induction mvs with
  | nil =>
    intro m name x
    simp [mvFold]
  | cons mv rest ih =>
    intro m name x
    by_cases hn : mvSiteName mv = IGNORED_SITE
    · simp only [mvFold]
      rw [if_pos hn, ih, List.exists_mem_cons_iff]
      have hcontra : name ≠ IGNORED_SITE →
          ¬(mvSiteName mv = name ∧ x ∈ collectFormOids mv ns) :=
        fun hni h => hni (h.1 ▸ hn)
      tauto
    · simp only [mvFold]
      rw [if_neg hn, ih, List.exists_mem_cons_iff]
      by_cases hname : mvSiteName mv = name
      · subst hname
        rw [siteForms_updSiteMap_same]
        tauto
      · rw [siteForms_updSiteMap_other _ _ _ _ _ (fun h => hname h.symm)]
        have hcontra : ¬(mvSiteName mv = name ∧ x ∈ collectFormOids mv ns) :=
          fun h => hname h.1
        tauto

/-- **C8**: a form OID is in the site/form map's entry for a display name
exactly when some (non-excluded) metadata-version element with that display
name collected it — i.e. the entry is the union of the form sets of ALL
elements sharing the name; later occurrences extend the set. -/
theorem claim_C8_site_form_union (root : Element) (ns : NSMap) (name x : String) :
    x ∈ siteForms (extract_metadata_versions root ns) name
      ↔ name ≠ IGNORED_SITE ∧
        ∃ mv ∈ find_elements_once root "MetaDataVersion" ns,
          mvSiteName mv = name ∧ x ∈ collectFormOids mv ns := by
  unfold extract_metadata_versions
  rw [mem_siteForms_mvFold]
  have h0 : siteForms [] name = [] := rfl
  simp [h0]
